import Mathlib

/-!
# Verification of the Sugarloaf cell-stack compositor (`src/sugarloaf/src/sugarloaf.rs`)

Shallow embedding of the run-merging row compositor (`Sugarloaf::stack`), the
frame orchestrator (`Sugarloaf::render`), and the layout operations
(`Sugarloaf::resize` / `rescale`), together with proofs of the spec's
testable properties.

`f32` scalars are modelled as exact rationals (`ℚ`); all arithmetic the code
performs on the modelled values (multiplication and addition of small
constants) is exact, and the claims under study are about which expressions
are computed, not about rounding.

Types that live in `crate::core` and `crate::layout` (not part of the
sources under study: `Sugar`, `SugarStyle`, `SugarDecoration`,
`RepeatedSugar`, `SugarloafLayout`, `Context`) are modelled from the spec,
with doc comments saying so.
-/

namespace Rio

/-- An RGBA color, the model of the source's `[f32; 4]`. -/
abbrev Color := ℚ × ℚ × ℚ × ℚ

/-- Modelled from the spec: `SugarStyle` (from `crate::core`, not under the
sources in study). The optional style record of a cell, with the three flags
read by `Sugarloaf::stack` (`is_bold_italic`, `is_bold`, `is_italic`). -/
structure SugarStyle where
  is_bold_italic : Bool
  is_bold : Bool
  is_italic : Bool
  deriving DecidableEq, Repr

/-- Modelled from the spec: `SugarDecoration` (from `crate::core`). The
optional decoration of a cell, with the fields read by `Sugarloaf::stack`:
a relative position pair, a size-factor pair and a color. The source reads
the Rust tuple components `relative_position.1` and `size.1`, which are the
second components here. -/
structure SugarDecoration where
  relative_position : ℚ × ℚ
  size : ℚ × ℚ
  color : Color
  deriving DecidableEq, Repr

/-- Modelled from the spec: `Sugar` (from `crate::core`) — one grid cell:
content character, foreground color, background color, optional style,
optional decoration. -/
structure Sugar where
  content : Char
  foreground_color : Color
  background_color : Color
  style : Option SugarStyle
  decoration : Option SugarDecoration
  deriving DecidableEq, Repr

/-- Modelled from the spec: `RepeatedSugar` (from `crate::core`) — the run
accumulator: accumulated display content, representative foreground color,
run length (`quantity`, read through `count()`), and the reset-pending flag. -/
structure RepeatedSugar where
  content : Option Char
  content_str : String
  foreground_color : Color
  background_color : Color
  quantity : Nat
  reset_on_next : Bool
  deriving DecidableEq, Repr

/-- `RepeatedSugar::new(quantity)`. -/
def RepeatedSugar.new (quantity : Nat) : RepeatedSugar :=
  { content := none
    content_str := ""
    foreground_color := (0, 0, 0, 0)
    background_color := (0, 0, 0, 0)
    quantity := quantity
    reset_on_next := false }

/-- Modelled from the spec: `RepeatedSugar::set` — called once per merged
adjacent pair, it records the cell, extends the accumulated length and the
concatenated content string. `Sugarloaf::stack` calls `set` only for the
left cell of each merged pair (never for the final boundary cell of a run),
so on the first call of a run (`quantity == 0`) the content of the cell is
appended twice: this is what makes the finalized content string equal the
concatenated content of the whole run, as the spec requires (a run of
`k+1` cells yields `k` `set` calls and a content string of `k+1`
characters). -/
def RepeatedSugar.set (r : RepeatedSugar) (s : Sugar) : RepeatedSugar :=
  { r with
    content := some s.content
    content_str :=
      if r.quantity == 0 then (r.content_str ++ s.content.toString) ++ s.content.toString
      else r.content_str ++ s.content.toString
    foreground_color := s.foreground_color
    background_color := s.background_color
    quantity := r.quantity + 1 }

/-- `RepeatedSugar::count()`. -/
def RepeatedSugar.count (r : RepeatedSugar) : Nat := r.quantity

/-- `RepeatedSugar::set_reset_on_next()`. -/
def RepeatedSugar.set_reset_on_next (r : RepeatedSugar) : RepeatedSugar :=
  { r with reset_on_next := true }

/-- Modelled from the spec: `RepeatedSugar::reset` — "reset whenever a run
boundary is crossed or after being consumed": the accumulator returns to its
initial state. -/
def RepeatedSugar.reset (_ : RepeatedSugar) : RepeatedSugar := RepeatedSugar.new 0

/-- The model of `cosmic_text::Style` (normal vs italic). -/
inductive FontStyle
  | normal
  | italic
  deriving DecidableEq, Repr

/-- `cosmic_text::Weight` is a `u16`; `Weight::BOLD = 700`, normal is 400. -/
def Weight.BOLD : Nat := 700

/-- The model of `cosmic_text::Attrs`, restricted to the fields
`Sugarloaf::stack` can set: family name, weight, style, optional color. -/
structure Attrs where
  family : Option String
  weight : Nat
  style : FontStyle
  color_opt : Option Color
  deriving DecidableEq, Repr

/-- `Attrs::new()`: defaults, no color set. -/
def Attrs.new : Attrs :=
  { family := none, weight := 400, style := FontStyle.normal, color_opt := none }

/-- The attributes value used throughout `stack`:
`attrs.family(cosmic_text::Family::Name("Fira Code"))`. The later call
`attr.color(cosmic_text::Color::rgb(1, 1, 1))` in the source discards its
result (`Attrs` builder methods return a new value by value), so `color_opt`
stays unset. -/
def attr : Attrs := { Attrs.new with family := some "Fira Code" }

/-- A queued text span: the model of the source's `(String, Attrs)` pairs in
`self.spans`. -/
abbrev Span := String × Attrs

/-- `components::rect::Rect`: position, color, size (all `f32`-valued in the
source, modelled as exact rationals). -/
structure Rect where
  position : ℚ × ℚ
  color : Color
  size : ℚ × ℚ
  deriving DecidableEq, Repr

/-- Modelled from the spec: `SugarloafLayout` (from `crate::layout`) — the
scale-aware geometry: viewport width/height, scale, font size, derived
per-cell height (`sugarheight`) and line height, background color. `resize`
stores the viewport dimensions and `update` recomputes the derived fields
from the stored base inputs. -/
structure SugarloafLayout where
  width : ℚ
  height : ℚ
  scale : ℚ
  font_size : ℚ
  line_height_factor : ℚ
  sugarheight : ℚ
  line_height : ℚ
  background_color : Color
  deriving DecidableEq, Repr

/-- Modelled from the spec: `SugarloafLayout::resize(width, height)` updates
the viewport dimensions. -/
def SugarloafLayout.resize (l : SugarloafLayout) (width height : Nat) : SugarloafLayout :=
  { l with width := (width : ℚ), height := (height : ℚ) }

/-- Modelled from the spec: `SugarloafLayout::rescale(scale)` updates the
device scale factor. -/
def SugarloafLayout.rescale (l : SugarloafLayout) (scale : ℚ) : SugarloafLayout :=
  { l with scale := scale }

/-- Modelled from the spec: `SugarloafLayout::update()` recomputes the
derived layout fields (per-cell height, line height) from the stored base
inputs (font size, scale, line-height factor). -/
def SugarloafLayout.update (l : SugarloafLayout) : SugarloafLayout :=
  { l with
    sugarheight := l.font_size * l.scale
    line_height := l.font_size * l.line_height_factor * l.scale }

/-- Modelled from the spec: the `Context` fields touched by the code in
study — the surface size and the device scale factor. -/
structure Context where
  size_width : Nat
  size_height : Nat
  scale : ℚ
  deriving DecidableEq, Repr

/-- Modelled from the spec: `Context::resize` stores the new surface size. -/
def Context.resize (c : Context) (width height : Nat) : Context :=
  { c with size_width := width, size_height := height }

/-- The `Sugarloaf` state: the fields of the source struct that the code in
study reads or writes (`ctx`, `layout`, the pending `rects` and `spans`).
The GPU brush/atlas/editor handles are external resources and are not part
of the state model. -/
structure Sugarloaf where
  ctx : Context
  layout : SugarloafLayout
  rects : List Rect
  spans : List Span
  deriving DecidableEq, Repr

/-- The merge condition of `Sugarloaf::stack` (lines 234–239): adjacent
cells merge iff content, foreground and background colors are equal and
neither carries a decoration. -/
def mergeable (a b : Sugar) : Bool :=
  a.content == b.content
    && a.foreground_color == b.foreground_color
    && a.background_color == b.background_color
    && a.decoration.isNone
    && b.decoration.isNone

/-- The emissions of one finalized run in `Sugarloaf::stack` (lines
246–354): the effective quantity, the pushed spans (zero or one) and the
pushed rects (background rect, then the optional decoration overlay). -/
structure RunEmit where
  quantity : Nat
  spans : List Span
  rects : List Rect
  deriving DecidableEq, Repr

/-- The body of `Sugarloaf::stack` at a boundary cell `c` with accumulator
`rep` (lines 246–354): compute the effective quantity, content string and
foreground color; push at most one styled span (bold-italic, else bold,
else italic — a present style record with none of the flags set pushes no
span — and a cell without a style record pushes the plain span); push the
background rect of width `10 * quantity`; if the cell carries a decoration,
push the overlay rect at `(10, 10 + relative_position.1 * line_height)` of
size `(10, sugarheight * size.1)` (Rust tuple indices). -/
def emitBoundary (l : SugarloafLayout) (rep : RepeatedSugar) (c : Sugar) : RunEmit :=
  let quantity : Nat := if rep.count > 0 then 1 + rep.count else 1
  let sugar_str : String := if quantity > 1 then rep.content_str else c.content.toString
  let fg_color : Color := if quantity > 1 then rep.foreground_color else c.foreground_color
  let spans : List Span :=
    match c.style with
    | some style =>
      if style.is_bold_italic then
        [(sugar_str, { attr with weight := Weight.BOLD, style := FontStyle.italic })]
      else if style.is_bold then
        [(sugar_str, { attr with weight := Weight.BOLD })]
      else if style.is_italic then
        [(sugar_str, { attr with style := FontStyle.italic })]
      else []
    | none => [(sugar_str, attr)]
  let bg_rect : Rect :=
    { position := (0, 0)
      color := c.background_color
      size := (10 * (quantity : ℚ), l.sugarheight) }
  let rects : List Rect :=
    match c.decoration with
    | some decoration =>
      let dec_pos_y : ℚ := 10 + decoration.relative_position.2 * l.line_height
      [bg_rect,
       { position := (10, dec_pos_y)
         color := decoration.color
         size := (10, l.sugarheight * decoration.size.2) }]
    | none => [bg_rect]
  -- `fg_color` is computed but never read afterwards, exactly as in the
  -- source (the `attr.color(...)` result is discarded there).
  let _ := fg_color
  { quantity := quantity, spans := spans, rects := rects }

/-- The `for i in 0..size` loop of `Sugarloaf::stack` (lines 230–359),
restructured as recursion on the remaining cells with one cell of
lookahead (`i < size - 1 && ...` becomes "the tail is nonempty and the
head merges with its successor"): a mergeable pair extends the accumulator
and continues; otherwise the current cell is a boundary —
`set_reset_on_next` is called, the run is finalized and emitted, and since
the reset-pending flag is now set, the accumulator is reset before the next
iteration. -/
def stackLoop (l : SugarloafLayout) : RepeatedSugar → List Sugar → List RunEmit
  | _, [] => []
  | rep, [c] => [emitBoundary l rep.set_reset_on_next c]
  | rep, c :: c2 :: rest =>
    if mergeable c c2 then
      stackLoop l (rep.set c) (c2 :: rest)
    else
      emitBoundary l rep.set_reset_on_next c
        :: stackLoop l rep.set_reset_on_next.reset (c2 :: rest)

/-- The content spans pushed for a row: the concatenation of the per-run
span pushes, in emission order. -/
def runsSpans (runs : List RunEmit) : List Span := (runs.map RunEmit.spans).flatten

/-- The rects pushed for a row: the concatenation of the per-run rect
pushes, in emission order. -/
def runsRects (runs : List RunEmit) : List Rect := (runs.map RunEmit.rects).flatten

/-- `Sugarloaf::stack` (lines 222–368): run the merging loop over the row
with a fresh accumulator (`RepeatedSugar::new(0)`), appending the emitted
spans and rects to the pending lists, then push the line-terminator span
`("\n", attr)` once. The final `set_rich_text` call hands the accumulated
spans to the external shaping service and does not change this state. -/
def Sugarloaf.stack (st : Sugarloaf) (stack : List Sugar) : Sugarloaf :=
  let runs := stackLoop st.layout (RepeatedSugar.new 0) stack
  { st with
    spans := (st.spans ++ runsSpans runs) ++ [("\n", attr)]
    rects := st.rects ++ runsRects runs }

/-- `Sugarloaf::pile_rects` (lines 401–405): append caller-supplied rects to
the pending rect list. -/
def Sugarloaf.pile_rects (st : Sugarloaf) (instances : List Rect) : Sugarloaf :=
  { st with rects := st.rects ++ instances }

/-- `Sugarloaf::resize` (lines 195–200): resize the context, then resize and
update the layout. -/
def Sugarloaf.resize (st : Sugarloaf) (width height : Nat) : Sugarloaf :=
  { st with
    ctx := st.ctx.resize width height
    layout := (st.layout.resize width height).update }

/-- `Sugarloaf::rescale` (lines 202–207): store the scale on the context,
then rescale and update the layout. -/
def Sugarloaf.rescale (st : Sugarloaf) (scale : ℚ) : Sugarloaf :=
  { st with
    ctx := { st.ctx with scale := scale }
    layout := (st.layout.rescale scale).update }

/-- `Sugarloaf::set_background_color` (lines 380–384). -/
def Sugarloaf.set_background_color (st : Sugarloaf) (color : Color) : Sugarloaf :=
  { st with layout := { st.layout with background_color := color } }

/-- The `wgpu::SurfaceError` variants: only `OutOfMemory` is treated as
fatal by the code in study. -/
inductive SurfaceError
  | timeout
  | outdated
  | lost
  | outOfMemory
  deriving DecidableEq, Repr

/-- The observable outcome of one `Sugarloaf::render` call: a completed
frame with the post-frame state, a silently dropped frame with the
untouched state, or a process abort (`panic!`). -/
inductive RenderOutcome
  | completed (st : Sugarloaf)
  | dropped (st : Sugarloaf)
  | panicked
  deriving DecidableEq, Repr

/-- `Sugarloaf::render` (lines 447–530), parameterized by the result of
`surface.get_current_texture()` (`none` = a target was acquired). On
success the frame is composited and submitted and the pending rect and span
lists are cleared (lines 516–518); on a recoverable surface error the
branch body is empty — the frame is silently dropped and the state is left
untouched; on `OutOfMemory` the code panics. The shaping/prepare calls
before acquisition touch only external resources, not this state. -/
def Sugarloaf.render (st : Sugarloaf) (acquisition : Option SurfaceError) : RenderOutcome :=
  match acquisition with
  | none => RenderOutcome.completed { st with rects := [], spans := [] }
  | some error =>
    if error = SurfaceError.outOfMemory then RenderOutcome.panicked
    else RenderOutcome.dropped st

/-- A caller-visible mutation of the pending frame state before a render:
pushing a row of cells or piling extra rects. -/
inductive SugarOp
  | pushRow (cells : List Sugar)
  | pushRects (instances : List Rect)

/-- Apply one pending-state operation. -/
def applyOp (st : Sugarloaf) : SugarOp → Sugarloaf
  | SugarOp.pushRow cells => st.stack cells
  | SugarOp.pushRects instances => st.pile_rects instances

/-- Apply a sequence of pending-state operations in order. -/
def applyOps (st : Sugarloaf) (ops : List SugarOp) : Sugarloaf :=
  ops.foldl applyOp st

/-! ## Auxiliary definitions for the statements and witnesses -/

/-- Iterating `RepeatedSugar.set` with the same cell `k` times: the
accumulator state after the loop has merged `k` adjacent pairs of a
constant run. -/
def setIter (rep : RepeatedSugar) (c : Sugar) : Nat → RepeatedSugar
  | 0 => rep
  | k + 1 => (setIter rep c k).set c

/-- The style classification in the spec's words: "bold-italic overrides
bold overrides italic overrides plain", as the selected (weight, style)
pair. Used to compare the emitted span attributes against the spec. -/
def specStylePrecedence : Option SugarStyle → Nat × FontStyle
  | some st =>
    if st.is_bold_italic then (Weight.BOLD, FontStyle.italic)
    else if st.is_bold then (Weight.BOLD, FontStyle.normal)
    else if st.is_italic then (400, FontStyle.italic)
    else (400, FontStyle.normal)
  | none => (400, FontStyle.normal)

/-- White, as an RGBA value. -/
def white : Color := (1, 1, 1, 1)

/-- Black, as an RGBA value. -/
def black : Color := (0, 0, 0, 1)

/-- A concrete layout for witnesses: scale 1, font size 20, per-cell height
20, line height 20. -/
def l0 : SugarloafLayout :=
  { width := 800, height := 600, scale := 1, font_size := 20,
    line_height_factor := 1, sugarheight := 20, line_height := 20,
    background_color := black }

/-- A concrete context for witnesses. -/
def ctx0 : Context := { size_width := 800, size_height := 600, scale := 1 }

/-- A concrete `Sugarloaf` state with empty pending lists, for witnesses. -/
def st0 : Sugarloaf := { ctx := ctx0, layout := l0, rects := [], spans := [] }

/-- The cell `('a', white-fg, black-bg, no style, no decoration)` of the
spec's end-to-end scenario A. -/
def ca : Sugar :=
  { content := 'a', foreground_color := white, background_color := black,
    style := none, decoration := none }

/-- A concrete decoration: underline-like overlay half a line below the
origin, a quarter of the cell height tall. -/
def dec0 : SugarDecoration :=
  { relative_position := (0, 1/2), size := (1, 1/4), color := white }

/-- The cell `ca` with the decoration `dec0` attached. -/
def cadec : Sugar := { ca with decoration := some dec0 }

/-- The cell `ca` with a style record present but none of the three style
flags set. -/
def cAF : Sugar :=
  { ca with style := some { is_bold_italic := false, is_bold := false, is_italic := false } }

/-- The cell `ca` with a style record carrying only the bold flag. -/
def cbold : Sugar :=
  { ca with style := some { is_bold_italic := false, is_bold := true, is_italic := false } }

/-- A sequence of pending-state operations for the render-drain witness:
one pushed row and one piled rect. -/
def ops0 : List SugarOp :=
  [SugarOp.pushRow [ca],
   SugarOp.pushRects [{ position := (5, 5), color := white, size := (1, 1) }]]

/-- The state after a completed render of `applyOps st0 ops0`. -/
def stAfter : Sugarloaf := { applyOps st0 ops0 with rects := [], spans := [] }

/-! ## Helper lemmas -/

lemma set_reset_on_next_quantity (rep : RepeatedSugar) :
    rep.set_reset_on_next.quantity = rep.quantity := rfl

lemma set_reset_on_next_content_str (rep : RepeatedSugar) :
    rep.set_reset_on_next.content_str = rep.content_str := rfl

lemma mergeable_self {c : Sugar} (h : c.decoration = none) : mergeable c c = true := by
  simp [mergeable, h]

lemma mergeable_eq_false_of_decoration {a b : Sugar}
    (h : a.decoration ≠ none ∨ b.decoration ≠ none) : mergeable a b = false := by
  rcases h with h | h
  · rcases ha : a.decoration with _ | d
    · exact absurd ha h
    · simp [mergeable, ha]
  · rcases hb : b.decoration with _ | d
    · exact absurd hb h
    · simp [mergeable, hb]

lemma setIter_succ_left (rep : RepeatedSugar) (c : Sugar) (k : Nat) :
    setIter rep c (k + 1) = setIter (rep.set c) c k := by
  induction k with
  | zero => rfl
  | succ k ih =>
    show (setIter rep c (k + 1)).set c = (setIter (rep.set c) c k).set c
    rw [ih]

lemma setIter_quantity (rep : RepeatedSugar) (c : Sugar) (k : Nat) :
    (setIter rep c k).quantity = rep.quantity + k := by
  induction k with
  | zero => rfl
  | succ k ih => simp [setIter, RepeatedSugar.set, ih]; omega

lemma setIter_content_str (c : Sugar) :
    ∀ k, 1 ≤ k →
      (setIter (RepeatedSugar.new 0) c k).content_str =
        String.mk (List.replicate (k + 1) c.content) := by
  intro k hk
  induction k with
  | zero => omega
  | succ k ih =>
    rcases Nat.eq_zero_or_pos k with h0 | hpos
    · subst h0
      apply String.ext
      simp [setIter, RepeatedSugar.set, RepeatedSugar.new, Char.toString, String.singleton]
    · have hq : (setIter (RepeatedSugar.new 0) c k).quantity = k := by
        simp [setIter_quantity, RepeatedSugar.new]
      have hne : ((setIter (RepeatedSugar.new 0) c k).quantity == 0) = false := by
        simp [hq]; omega
      show ((setIter (RepeatedSugar.new 0) c k).set c).content_str = _
      apply String.ext
      rw [RepeatedSugar.set]
      simp only [hne, Bool.false_eq_true, if_false]
      simp [ih hpos, Char.toString, String.singleton, List.replicate_succ']

lemma emitBoundary_quantity (l : SugarloafLayout) (rep : RepeatedSugar) (c : Sugar) :
    (emitBoundary l rep c).quantity = rep.quantity + 1 := by
  rcases Nat.eq_zero_or_pos rep.quantity with h | h
  · simp [emitBoundary, RepeatedSugar.count, h]
  · simp [emitBoundary, RepeatedSugar.count, h]
    omega

lemma emitBoundary_sugar_str_eq (rep : RepeatedSugar) (c : Sugar) :
    (if (if rep.count > 0 then 1 + rep.count else 1) > 1
      then rep.content_str else c.content.toString)
      = (if 0 < rep.quantity then rep.content_str else c.content.toString) := by
  rcases Nat.eq_zero_or_pos rep.quantity with h0 | h0
  · simp [RepeatedSugar.count, h0]
  · have h1 : rep.count > 0 := h0
    have h2 : 1 + rep.count > 1 := by omega
    simp [h1, h2, h0]

lemma emitBoundary_spans_str (l : SugarloafLayout) (rep : RepeatedSugar) (c : Sugar)
    (hstyle : c.style = none ∨ ∃ st, c.style = some st ∧
      (st.is_bold_italic = true ∨ st.is_bold = true ∨ st.is_italic = true)) :
    (emitBoundary l rep c).spans.map Prod.fst =
      [if 0 < rep.quantity then rep.content_str else c.content.toString] := by
  rcases hstyle with h | ⟨st, h, hflag⟩
  · simp [emitBoundary, h, emitBoundary_sugar_str_eq]
  · by_cases hbi : st.is_bold_italic = true
    · simp [emitBoundary, h, hbi, emitBoundary_sugar_str_eq]
    · by_cases hb : st.is_bold = true
      · simp [emitBoundary, h, hbi, hb, emitBoundary_sugar_str_eq]
      · by_cases hi : st.is_italic = true
        · simp [emitBoundary, h, hbi, hb, hi, emitBoundary_sugar_str_eq]
        · exfalso; rcases hflag with hf | hf | hf <;> simp_all

lemma emitBoundary_rects_of_none (l : SugarloafLayout) (rep : RepeatedSugar) (c : Sugar)
    (h : c.decoration = none) :
    (emitBoundary l rep c).rects =
      [{ position := (0, 0), color := c.background_color,
         size := (10 * ((rep.quantity + 1 : Nat) : ℚ), l.sugarheight) }] := by
  rcases Nat.eq_zero_or_pos rep.quantity with h0 | h0
  · simp [emitBoundary, RepeatedSugar.count, h, h0]
  · have h1 : rep.count > 0 := h0
    simp [emitBoundary, RepeatedSugar.count, h, h1]
    rw [if_pos h0]
    ring

lemma emitBoundary_rects_of_some (l : SugarloafLayout) (rep : RepeatedSugar) (c : Sugar)
    (d : SugarDecoration) (h : c.decoration = some d) :
    (emitBoundary l rep c).rects =
      [{ position := (0, 0), color := c.background_color,
         size := (10 * ((rep.quantity + 1 : Nat) : ℚ), l.sugarheight) },
       { position := (10, 10 + d.relative_position.2 * l.line_height), color := d.color,
         size := (10, l.sugarheight * d.size.2) }] := by
  rcases Nat.eq_zero_or_pos rep.quantity with h0 | h0
  · simp [emitBoundary, RepeatedSugar.count, h, h0]
  · have h1 : rep.count > 0 := h0
    simp [emitBoundary, RepeatedSugar.count, h, h1]
    rw [if_pos h0]
    ring

lemma runsSpans_cons (r : RunEmit) (rs : List RunEmit) :
    runsSpans (r :: rs) = r.spans ++ runsSpans rs := by
  simp [runsSpans]

lemma runsRects_cons (r : RunEmit) (rs : List RunEmit) :
    runsRects (r :: rs) = r.rects ++ runsRects rs := by
  simp [runsRects]

/-- Unfolding: the empty row emits nothing. -/
lemma stackLoop_nil (l : SugarloafLayout) (rep : RepeatedSugar) :
    stackLoop l rep [] = [] := rfl

/-- Unfolding: the last cell of a row is always a boundary. -/
lemma stackLoop_singleton (l : SugarloafLayout) (rep : RepeatedSugar) (c : Sugar) :
    stackLoop l rep [c] = [emitBoundary l rep.set_reset_on_next c] := rfl

/-- Unfolding: a mergeable adjacent pair extends the accumulator. -/
lemma stackLoop_cons_merge (l : SugarloafLayout) (rep : RepeatedSugar) (c c2 : Sugar)
    (rest : List Sugar) (h : mergeable c c2 = true) :
    stackLoop l rep (c :: c2 :: rest) = stackLoop l (rep.set c) (c2 :: rest) := by
  simp [stackLoop, h]

/-- Unfolding: a non-mergeable adjacent pair finalizes the current run and
resets the accumulator. -/
lemma stackLoop_cons_boundary (l : SugarloafLayout) (rep : RepeatedSugar) (c c2 : Sugar)
    (rest : List Sugar) (h : mergeable c c2 = false) :
    stackLoop l rep (c :: c2 :: rest) =
      emitBoundary l rep.set_reset_on_next c
        :: stackLoop l (RepeatedSugar.new 0) (c2 :: rest) := by
  simp [stackLoop, h, RepeatedSugar.reset]

/-- Processing a constant block of `k + 1` copies of an undecorated cell
followed by a non-mergeable remainder: the block is consumed by `k` merge
steps and finalized at its last cell, then the remainder is processed with a
fresh accumulator. -/
lemma stackLoop_replicate (l : SugarloafLayout) (c : Sugar) (rest : List Sugar)
    (hdec : c.decoration = none)
    (hrest : rest = [] ∨ ∃ r rs, rest = r :: rs ∧ mergeable c r = false) :
    ∀ (k : Nat) (rep : RepeatedSugar),
      stackLoop l rep (List.replicate (k + 1) c ++ rest) =
        emitBoundary l (setIter rep c k).set_reset_on_next c
          :: stackLoop l (RepeatedSugar.new 0) rest := by
  intro k
  induction k with
  | zero =>
    intro rep
    rcases hrest with h | ⟨r, rs, hr, hm⟩
    · subst h
      simp [stackLoop_singleton, stackLoop_nil, setIter]
    · subst hr
      show stackLoop l rep (c :: r :: rs) = _
      rw [stackLoop_cons_boundary l rep c r rs hm]
      rfl
  | succ k ih =>
    intro rep
    have h2 : List.replicate (k + 1) c ++ rest = c :: (List.replicate k c ++ rest) := by
      simp [List.replicate_succ]
    rw [show List.replicate (k + 2) c ++ rest = c :: (List.replicate (k + 1) c ++ rest) by
          simp [List.replicate_succ]]
    rw [h2, stackLoop_cons_merge l rep c c _ (mergeable_self hdec), ← h2,
      ih (rep.set c), setIter_succ_left]

/-- If the last cell of a nonempty prefix does not merge with the first cell
of the (nonempty) remainder, the loop processes the two parts independently,
the second with a fresh accumulator. -/
lemma stackLoop_append (l : SugarloafLayout) (a : Sugar) (ys : List Sugar)
    (hys : ys ≠ []) (hm : ∀ y, ys.head? = some y → mergeable a y = false) :
    ∀ (xs : List Sugar) (rep : RepeatedSugar),
      stackLoop l rep ((xs ++ [a]) ++ ys) =
        stackLoop l rep (xs ++ [a]) ++ stackLoop l (RepeatedSugar.new 0) ys := by
  intro xs
  induction xs with
  | nil =>
    intro rep
    obtain ⟨y, ys', rfl⟩ := List.exists_cons_of_ne_nil hys
    have hma := hm y rfl
    simp only [List.nil_append, List.cons_append]
    rw [stackLoop_cons_boundary l rep a y ys' hma, stackLoop_singleton]
    simp
  | cons x xs ih =>
    intro rep
    cases hxs : xs ++ [a] with
    | nil => exact absurd hxs (by simp)
    | cons b t =>
      have hrow : ((x :: xs) ++ [a]) ++ ys = x :: b :: (t ++ ys) := by
        simp [hxs]
      have hpre : (x :: xs) ++ [a] = x :: b :: t := by
        simp [hxs]
      have hih : stackLoop l (rep.set x) (b :: (t ++ ys)) =
          stackLoop l (rep.set x) (b :: t) ++ stackLoop l (RepeatedSugar.new 0) ys := by
        have := ih (rep.set x)
        rw [hxs] at this
        simpa using this
      have hih0 : stackLoop l (RepeatedSugar.new 0) (b :: (t ++ ys)) =
          stackLoop l (RepeatedSugar.new 0) (b :: t)
            ++ stackLoop l (RepeatedSugar.new 0) ys := by
        have := ih (RepeatedSugar.new 0)
        rw [hxs] at this
        simpa using this
      by_cases hxb : mergeable x b = true
      · rw [hrow, hpre, stackLoop_cons_merge l rep x b _ hxb,
          stackLoop_cons_merge l rep x b _ hxb]
        exact hih
      · rw [hrow, hpre, stackLoop_cons_boundary l rep x b _ (eq_false_of_ne_true hxb),
          stackLoop_cons_boundary l rep x b _ (eq_false_of_ne_true hxb)]
        rw [hih0]
        simp

/-- The quantities of the emitted runs sum to the accumulator's carried
quantity plus the number of cells processed. -/
lemma stackLoop_quantity_sum (l : SugarloafLayout) :
    ∀ (row : List Sugar), row ≠ [] → ∀ (rep : RepeatedSugar),
      ((stackLoop l rep row).map RunEmit.quantity).sum = rep.quantity + row.length := by
  intro row
  induction row with
  | nil => intro h; exact absurd rfl h
  | cons c rest ih =>
    intro _ rep
    cases rest with
    | nil =>
      rw [stackLoop_singleton]
      simp [emitBoundary_quantity, set_reset_on_next_quantity]
    | cons c2 rest' =>
      by_cases hmc : mergeable c c2 = true
      · rw [stackLoop_cons_merge l rep c c2 _ hmc, ih (by simp) (rep.set c)]
        simp [RepeatedSugar.set]
        omega
      · rw [stackLoop_cons_boundary l rep c c2 _ (eq_false_of_ne_true hmc),
          List.map_cons, List.sum_cons, ih (by simp) _]
        simp [emitBoundary_quantity, set_reset_on_next_quantity, RepeatedSugar.new]
        omega

/-- Every emitted run is the finalization of some accumulator state at some
boundary cell. -/
lemma stackLoop_mem (l : SugarloafLayout) :
    ∀ (row : List Sugar) (rep : RepeatedSugar) (run : RunEmit),
      run ∈ stackLoop l rep row → ∃ rep' c, run = emitBoundary l rep' c := by
  intro row
  induction row with
  | nil => intro rep run h; simp [stackLoop_nil] at h
  | cons c rest ih =>
    intro rep run h
    cases rest with
    | nil =>
      rw [stackLoop_singleton] at h
      simp at h
      exact ⟨rep.set_reset_on_next, c, h⟩
    | cons c2 rest' =>
      by_cases hmc : mergeable c c2 = true
      · rw [stackLoop_cons_merge l rep c c2 _ hmc] at h
        exact ih (rep.set c) run h
      · rw [stackLoop_cons_boundary l rep c c2 _ (eq_false_of_ne_true hmc)] at h
        rcases List.mem_cons.mp h with h | h
        · exact ⟨rep.set_reset_on_next, c, h⟩
        · exact ih _ run h

lemma ne_newline_of_chars (str : String) (h : ∀ ch ∈ str.data, ch ≠ '\n') :
    str ≠ "\n" := by
  intro he
  subst he
  exact h '\n' (by decide) rfl

lemma set_content_str_chars (rep : RepeatedSugar) (c : Sugar) :
    ∀ ch ∈ (rep.set c).content_str.data, ch ∈ rep.content_str.data ∨ ch = c.content := by
  intro ch hch
  rw [RepeatedSugar.set] at hch
  by_cases hq : (rep.quantity == 0) = true
  · simp [hq, Char.toString, String.singleton] at hch
    tauto
  · simp [hq, Char.toString, String.singleton] at hch
    tauto

lemma emitBoundary_span_strings (l : SugarloafLayout) (rep : RepeatedSugar) (c : Sugar) :
    ∀ s ∈ (emitBoundary l rep c).spans,
      s.1 = rep.content_str ∨ s.1 = c.content.toString := by
  intro s hs
  have hstr : ∀ (a : Attrs),
      s = ((if (if rep.count > 0 then 1 + rep.count else 1) > 1
            then rep.content_str else c.content.toString), a) →
      s.1 = rep.content_str ∨ s.1 = c.content.toString := by
    intro a hsa
    by_cases hq : (if rep.count > 0 then 1 + rep.count else 1) > 1
    · left; rw [hsa]; simp [hq]
    · right; rw [hsa]; simp [hq]
  rcases hst : c.style with _ | st
  · simp only [emitBoundary, hst] at hs
    simp at hs
    exact hstr attr (by rw [hs])
  · simp only [emitBoundary, hst] at hs
    by_cases hbi : st.is_bold_italic = true
    · simp [hbi] at hs
      exact hstr _ (by rw [hs])
    · by_cases hb : st.is_bold = true
      · simp [hbi, hb] at hs
        exact hstr _ (by rw [hs])
      · by_cases hi : st.is_italic = true
        · simp [hbi, hb, hi] at hs
          exact hstr _ (by rw [hs])
        · simp [hbi, hb, hi] at hs

/-- Every content span pushed for a row whose cells' contents are not the
newline character differs from the line-terminator string. -/
lemma stackLoop_spans_ne_newline (l : SugarloafLayout) :
    ∀ (row : List Sugar) (rep : RepeatedSugar),
      (∀ ch ∈ rep.content_str.data, ch ≠ '\n') →
      (∀ c ∈ row, c.content ≠ '\n') →
      ∀ s ∈ runsSpans (stackLoop l rep row), s.1 ≠ "\n" := by
  intro row
  induction row with
  | nil => intro rep _ _ s hs; simp [stackLoop_nil, runsSpans] at hs
  | cons c rest ih =>
    intro rep hrep hrow s hs
    have hc : c.content ≠ '\n' := hrow c (by simp)
    have hboundary : ∀ s ∈ (emitBoundary l rep.set_reset_on_next c).spans, s.1 ≠ "\n" := by
      intro s' hs'
      rcases emitBoundary_span_strings l rep.set_reset_on_next c s' hs' with h | h
      · rw [h, set_reset_on_next_content_str]
        exact ne_newline_of_chars _ hrep
      · rw [h]
        apply ne_newline_of_chars
        intro ch hch
        simp [Char.toString, String.singleton] at hch
        rw [hch]
        exact hc
    cases rest with
    | nil =>
      rw [stackLoop_singleton] at hs
      rw [show runsSpans [emitBoundary l rep.set_reset_on_next c]
            = (emitBoundary l rep.set_reset_on_next c).spans ++ runsSpans [] from
            runsSpans_cons _ _] at hs
      simp [runsSpans] at hs
      exact hboundary s hs
    | cons c2 rest' =>
      by_cases hmc : mergeable c c2 = true
      · rw [stackLoop_cons_merge l rep c c2 _ hmc] at hs
        refine ih (rep.set c) ?_ (fun x hx => hrow x (by simp [hx])) s hs
        intro ch hch
        rcases set_content_str_chars rep c ch hch with h | h
        · exact hrep ch h
        · rw [h]; exact hc
      · rw [stackLoop_cons_boundary l rep c c2 _ (eq_false_of_ne_true hmc),
          runsSpans_cons] at hs
        rcases List.mem_append.mp hs with h | h
        · exact hboundary s h
        · refine ih (RepeatedSugar.new 0) ?_ (fun x hx => hrow x (by simp [hx])) s h
          intro ch hch
          simp [RepeatedSugar.new] at hch



/-! ## Claim theorems -/

/-- C1 (counterexample): a row of 5 cells identical in content ('a'),
foreground and background color, none decorated, but whose (shared) style
record is present with none of the three flags set, merges into exactly one
run of quantity 5 — yet NO span is emitted for it, where the claim requires
one Span whose content is the run's concatenated content ("aaaaa"). -/
theorem claim1_counterexample :
    (stackLoop l0 (RepeatedSugar.new 0) (List.replicate 5 cAF)).map RunEmit.quantity = [5]
    ∧ runsSpans (stackLoop l0 (RepeatedSugar.new 0) (List.replicate 5 cAF)) = [] := by
  constructor
  · decide
  · decide

/-- C1 (amended, proved): for every row beginning with `k+1` cells all equal
to an undecorated cell `c` and followed by a remainder whose first cell (if
any) does not merge with `c`, `stack` emits exactly one run covering the
block: quantity `k+1`, one background Rect of width `(k+1) * 10` (the fixed
per-cell width) and height the layout's per-cell height, and — provided the
cell's style record, when present, has at least one style flag set — exactly
one Span whose content is the `k+1`-fold concatenation of the cell content.
The remainder is processed independently with a fresh accumulator. -/
theorem claim1_run_merge (l : SugarloafLayout) (c : Sugar) (k : Nat) (rest : List Sugar)
    (hdec : c.decoration = none)
    (hstyle : c.style = none ∨ ∃ st, c.style = some st ∧
      (st.is_bold_italic = true ∨ st.is_bold = true ∨ st.is_italic = true))
    (hrest : rest = [] ∨ ∃ r rs, rest = r :: rs ∧ mergeable c r = false) :
    ∃ run, stackLoop l (RepeatedSugar.new 0) (List.replicate (k + 1) c ++ rest) =
          run :: stackLoop l (RepeatedSugar.new 0) rest
      ∧ run.quantity = k + 1
      ∧ run.spans.map Prod.fst = [String.mk (List.replicate (k + 1) c.content)]
      ∧ run.rects = [{ position := (0, 0), color := c.background_color,
                       size := (10 * ((k : ℚ) + 1), l.sugarheight) }] := by
  refine ⟨emitBoundary l (setIter (RepeatedSugar.new 0) c k).set_reset_on_next c,
    stackLoop_replicate l c rest hdec hrest k (RepeatedSugar.new 0), ?_, ?_, ?_⟩
  · rw [emitBoundary_quantity, set_reset_on_next_quantity, setIter_quantity]
    simp [RepeatedSugar.new]
  · rw [emitBoundary_spans_str _ _ _ hstyle]
    rcases Nat.eq_zero_or_pos k with hk | hk
    · subst hk
      have hq0 : (setIter (RepeatedSugar.new 0) c 0).set_reset_on_next.quantity = 0 := by
        simp [setIter, RepeatedSugar.new, set_reset_on_next_quantity]
      rw [hq0, if_neg (lt_irrefl 0)]
      rfl
    · have hq : 0 < (setIter (RepeatedSugar.new 0) c k).set_reset_on_next.quantity := by
        rw [set_reset_on_next_quantity, setIter_quantity]
        simp [RepeatedSugar.new]
        omega
      rw [if_pos hq, set_reset_on_next_content_str, setIter_content_str c k hk]
  · rw [emitBoundary_rects_of_none _ _ _ hdec, set_reset_on_next_quantity, setIter_quantity]
    simp [RepeatedSugar.new]

/-- Witness for C1: the spec's scenario A — a whole row of 5 cells
`('a', white-fg, black-bg, no style, no decoration)` yields one run of
quantity 5, one Span with content "aaaaa", and one Rect of width `5 * 10`. -/
theorem claim1_run_merge_witness :
    ∃ run, stackLoop l0 (RepeatedSugar.new 0) (List.replicate (4 + 1) ca ++ []) =
          run :: stackLoop l0 (RepeatedSugar.new 0) []
      ∧ run.quantity = 4 + 1
      ∧ run.spans.map Prod.fst = [String.mk (List.replicate (4 + 1) ca.content)]
      ∧ run.rects = [{ position := (0, 0), color := ca.background_color,
                       size := (10 * ((4 : ℚ) + 1), l0.sugarheight) }] :=
  claim1_run_merge l0 ca 4 [] rfl (Or.inl rfl) (Or.inl rfl)

/-- C2 (counterexample): in the row `[a, a, a-with-decoration]`, cells 1 and
2 are adjacent, identical in content, foreground and background color, and
cell 2 carries a decoration; the emitted run quantities are `[2, 1]` — the
run containing cell 1 has quantity 2, refuting "two separate runs of
quantity 1 each". -/
theorem claim2_counterexample :
    ca.content = cadec.content ∧ ca.foreground_color = cadec.foreground_color
    ∧ ca.background_color = cadec.background_color ∧ cadec.decoration ≠ none
    ∧ (stackLoop l0 (RepeatedSugar.new 0) [ca, ca, cadec]).map RunEmit.quantity = [2, 1] := by
  refine ⟨rfl, rfl, rfl, by decide, by decide⟩

/-- C2 (amended, proved): two adjacent cells identical in content/fg/bg of
which at least one carries a decoration are never merged into one run: the
loop splits exactly between them (the runs of the prefix ending at the left
cell are emitted independently of the suffix starting at the right cell, and
the prefix quantities sum to the prefix length, so no run covers both
cells); when the pair is the whole row, the two runs have quantity 1 each.
If the left cell extends a run of preceding identical undecorated cells its
run has quantity greater than 1, which is the correction to the claim. -/
theorem claim2_decoration_isolation (l : SugarloafLayout) (xs zs : List Sugar) (a b : Sugar)
    (_hc : a.content = b.content) (_hf : a.foreground_color = b.foreground_color)
    (_hbg : a.background_color = b.background_color)
    (hd : a.decoration ≠ none ∨ b.decoration ≠ none) :
    stackLoop l (RepeatedSugar.new 0) (xs ++ a :: b :: zs) =
        stackLoop l (RepeatedSugar.new 0) (xs ++ [a])
          ++ stackLoop l (RepeatedSugar.new 0) (b :: zs)
    ∧ ((stackLoop l (RepeatedSugar.new 0) (xs ++ [a])).map RunEmit.quantity).sum
        = xs.length + 1
    ∧ (xs = [] → zs = [] →
        (stackLoop l (RepeatedSugar.new 0) (xs ++ a :: b :: zs)).map RunEmit.quantity
          = [1, 1]) := by
  have hm : mergeable a b = false := mergeable_eq_false_of_decoration hd
  have hsplit := stackLoop_append l a (b :: zs) (by simp)
    (fun y hy => by simp at hy; rw [← hy]; exact hm) xs (RepeatedSugar.new 0)
  have hrow : (xs ++ [a]) ++ (b :: zs) = xs ++ a :: b :: zs := by simp
  refine ⟨by rw [← hrow]; exact hsplit, ?_, ?_⟩
  · rw [stackLoop_quantity_sum l (xs ++ [a]) (by simp) (RepeatedSugar.new 0)]
    simp [RepeatedSugar.new]
  · rintro rfl rfl
    simp only [List.nil_append]
    rw [stackLoop_cons_boundary l _ a b [] hm, stackLoop_singleton]
    simp [emitBoundary_quantity, set_reset_on_next_quantity, RepeatedSugar.new]

/-- Witness for C2: the two-cell row `[a, a-with-decoration]` splits into
two runs of quantity 1 each. -/
theorem claim2_decoration_isolation_witness :
    stackLoop l0 (RepeatedSugar.new 0) ([] ++ ca :: cadec :: []) =
        stackLoop l0 (RepeatedSugar.new 0) ([] ++ [ca])
          ++ stackLoop l0 (RepeatedSugar.new 0) (cadec :: [])
    ∧ ((stackLoop l0 (RepeatedSugar.new 0) ([] ++ [ca])).map RunEmit.quantity).sum
        = List.length ([] : List Sugar) + 1
    ∧ (([] : List Sugar) = [] → ([] : List Sugar) = [] →
        (stackLoop l0 (RepeatedSugar.new 0) ([] ++ ca :: cadec :: [])).map RunEmit.quantity
          = [1, 1]) :=
  claim2_decoration_isolation l0 [] [] ca cadec rfl rfl rfl (Or.inr (by decide))

/-- C3 (counterexample): a cell whose style record is present but has none
of the bold, italic or bold-italic flags set is finalized as one run for
which NO Span is emitted — the claim requires exactly one Span for every
finalized run. -/
theorem claim3_counterexample :
    (stackLoop l0 (RepeatedSugar.new 0) [cAF]).length = 1
    ∧ runsSpans (stackLoop l0 (RepeatedSugar.new 0) [cAF]) = [] := by
  refine ⟨by decide, by decide⟩

/-- C3 (amended, proved): for every finalized run whose boundary cell has no
style record, or a style record with at least one of the flags set, exactly
one Span is emitted and its (weight, style) attributes equal the spec's
precedence selection (bold-italic over bold over italic over plain); a
present style record with none of the flags set emits no Span, which is the
correction to the claim. -/
theorem claim3_style_precedence (l : SugarloafLayout) (rep : RepeatedSugar) (c : Sugar)
    (hstyle : c.style = none ∨ ∃ st, c.style = some st ∧
      (st.is_bold_italic = true ∨ st.is_bold = true ∨ st.is_italic = true)) :
    (emitBoundary l rep c).spans.map (fun s => (s.2.weight, s.2.style)) =
      [specStylePrecedence c.style] := by
  rcases hstyle with h | ⟨st, h, hflag⟩
  · simp [emitBoundary, h, specStylePrecedence, attr, Attrs.new]
  · by_cases hbi : st.is_bold_italic = true
    · simp [emitBoundary, h, hbi, specStylePrecedence, attr, Attrs.new]
    · by_cases hb : st.is_bold = true
      · simp [emitBoundary, h, hbi, hb, specStylePrecedence, attr, Attrs.new]
      · by_cases hi : st.is_italic = true
        · simp [emitBoundary, h, hbi, hb, hi, specStylePrecedence, attr, Attrs.new]
        · exfalso
          rcases hflag with hf | hf | hf <;> simp_all

/-- Witness for C3: a bold cell's run emits exactly one span classified as
(bold weight, normal style) by the precedence. -/
theorem claim3_style_precedence_witness :
    (emitBoundary l0 (RepeatedSugar.new 0) cbold).spans.map (fun s => (s.2.weight, s.2.style)) =
      [specStylePrecedence cbold.style] :=
  claim3_style_precedence l0 (RepeatedSugar.new 0) cbold
    (Or.inr ⟨_, rfl, Or.inr (Or.inl rfl)⟩)



/-- C4 (confirmed): after any render call in which the surface target was
acquired (a completed frame), the pending Rect and Span lists are both
empty, regardless of which rows and extra rects were pushed beforehand. -/
theorem claim4_render_drains (st : Sugarloaf) (ops : List SugarOp) (st' : Sugarloaf)
    (h : Sugarloaf.render (applyOps st ops) none = RenderOutcome.completed st') :
    st'.rects = [] ∧ st'.spans = [] := by
  simp only [Sugarloaf.render] at h
  injection h with h2
  rw [← h2]
  exact ⟨rfl, rfl⟩

/-- Witness for C4: after pushing one row and one extra rect, a completed
render leaves both pending lists empty. -/
theorem claim4_render_drains_witness :
    Sugarloaf.render (applyOps st0 ops0) none = RenderOutcome.completed stAfter
    ∧ stAfter.rects = [] ∧ stAfter.spans = [] :=
  ⟨rfl, claim4_render_drains st0 ops0 stAfter rfl⟩

/-- C5 (confirmed): a recoverable surface-acquisition error drops the frame
silently — render returns with the state (including the pending Rect and
Span lists) unchanged — while an `OutOfMemory` acquisition error terminates
the process. -/
theorem claim5_render_error_policy (st : Sugarloaf) (e : SurfaceError) :
    (e ≠ SurfaceError.outOfMemory →
      Sugarloaf.render st (some e) = RenderOutcome.dropped st)
    ∧ Sugarloaf.render st (some SurfaceError.outOfMemory) = RenderOutcome.panicked := by
  constructor
  · intro he
    simp [Sugarloaf.render, he]
  · simp [Sugarloaf.render]

/-- Witness for C5: an `Outdated` error drops the frame with the state
untouched; `OutOfMemory` panics. -/
theorem claim5_render_error_policy_witness :
    Sugarloaf.render st0 (some SurfaceError.outdated) = RenderOutcome.dropped st0
    ∧ Sugarloaf.render st0 (some SurfaceError.outOfMemory) = RenderOutcome.panicked :=
  ⟨(claim5_render_error_policy st0 SurfaceError.outdated).1 (by decide),
   (claim5_render_error_policy st0 SurfaceError.outdated).2⟩

/-- C6 (confirmed): every `stack` call on a row of N cells (N ≥ 0) appends
exactly one line-terminator span `"\n"` to the span list, after all content
spans emitted for the row; no content span equals the terminator (stated
for rows whose cell contents are not themselves the newline character). -/
theorem claim6_line_terminator (st : Sugarloaf) (row : List Sugar)
    (h : ∀ c ∈ row, c.content ≠ '\n') :
    (st.stack row).spans =
        (st.spans ++ runsSpans (stackLoop st.layout (RepeatedSugar.new 0) row))
          ++ [("\n", attr)]
    ∧ ∀ s ∈ runsSpans (stackLoop st.layout (RepeatedSugar.new 0) row), s.1 ≠ "\n" := by
  refine ⟨rfl, ?_⟩
  exact stackLoop_spans_ne_newline st.layout row (RepeatedSugar.new 0)
    (by intro ch hch; simp [RepeatedSugar.new] at hch) h

/-- Witness for C6: a one-cell row appends its content span and then exactly
one terminator span. -/
theorem claim6_line_terminator_witness :
    (st0.stack [ca]).spans =
        (st0.spans ++ runsSpans (stackLoop st0.layout (RepeatedSugar.new 0) [ca]))
          ++ [("\n", attr)]
    ∧ ∀ s ∈ runsSpans (stackLoop st0.layout (RepeatedSugar.new 0) [ca]), s.1 ≠ "\n" :=
  claim6_line_terminator st0 [ca] (by decide)

/-- C7 (counterexample): processing a row of length 0 does emit a Span: the
unconditional line-terminator span `"\n"` is pushed even for an empty row,
so the span list grows from `[]` to `[("\n", attr)]` — the claim says no
Spans are emitted. -/
theorem claim7_counterexample :
    st0.spans = [] ∧ (Sugarloaf.stack st0 []).spans = [("\n", attr)]
    ∧ (Sugarloaf.stack st0 []).rects = [] :=
  ⟨rfl, rfl, rfl⟩

/-- C7 (amended, proved): a row of length 0 emits no content Spans and no
Rects; the only effect is the unconditional line-terminator span appended
to the span list. -/
theorem claim7_empty_row (st : Sugarloaf) :
    (st.stack []).rects = st.rects
    ∧ (st.stack []).spans = st.spans ++ [("\n", attr)] := by
  constructor
  · show st.rects ++ runsRects (stackLoop st.layout (RepeatedSugar.new 0) []) = st.rects
    simp [stackLoop_nil, runsRects]
  · show (st.spans ++ runsSpans (stackLoop st.layout (RepeatedSugar.new 0) []))
        ++ [("\n", attr)] = st.spans ++ [("\n", attr)]
    simp [stackLoop_nil, runsSpans]

/-- C8 (confirmed): calling `resize(w, h)` twice with identical arguments
leaves the full state (context and layout included) identical to calling it
once. -/
theorem claim8_resize_idempotent (st : Sugarloaf) (width height : Nat) :
    (st.resize width height).resize width height = st.resize width height := rfl

/-- C9 (confirmed): a finalized run whose boundary cell carries a decoration
emits exactly one overlay Rect immediately after the run's background Rect;
its vertical offset is the fixed origin offset 10 plus the decoration's
relative vertical position scaled by the layout line height, its height is
the layout per-cell height scaled by the decoration's height size factor,
and its horizontal position is the fixed 10, independent of the row
content. -/
theorem claim9_decoration_overlay (l : SugarloafLayout) (rep : RepeatedSugar) (c : Sugar)
    (d : SugarDecoration) (h : c.decoration = some d) :
    (emitBoundary l rep c).rects.map Rect.position =
        [(0, 0), (10, 10 + d.relative_position.2 * l.line_height)]
    ∧ (emitBoundary l rep c).rects.map (fun r => r.size.2) =
        [l.sugarheight, l.sugarheight * d.size.2]
    ∧ (emitBoundary l rep c).rects.map Rect.color = [c.background_color, d.color] := by
  rw [emitBoundary_rects_of_some l rep c d h]
  exact ⟨rfl, rfl, rfl⟩

/-- Witness for C9: the decorated cell `cadec` yields a background rect at
the origin followed by one overlay rect at `(10, 10 + (1/2) * 20)` with
height `20 * (1/4)`. -/
theorem claim9_decoration_overlay_witness :
    (emitBoundary l0 (RepeatedSugar.new 0) cadec).rects.map Rect.position =
        [(0, 0), (10, 10 + dec0.relative_position.2 * l0.line_height)]
    ∧ (emitBoundary l0 (RepeatedSugar.new 0) cadec).rects.map (fun r => r.size.2) =
        [l0.sugarheight, l0.sugarheight * dec0.size.2]
    ∧ (emitBoundary l0 (RepeatedSugar.new 0) cadec).rects.map Rect.color =
        [cadec.background_color, dec0.color] :=
  claim9_decoration_overlay l0 (RepeatedSugar.new 0) cadec dec0 rfl

/-- C10 (confirmed): for every row, every run emitted by `stack` has its
background Rect (the first of its rects) at position exactly `(0, 0)` and
every decoration Rect (any later one) at horizontal position exactly 10 —
the positions never depend on the cell's column index, so consecutive runs'
rectangles overlap at the row origin. -/
theorem claim10_rect_positions (l : SugarloafLayout) (row : List Sugar) (run : RunEmit)
    (h : run ∈ stackLoop l (RepeatedSugar.new 0) row) :
    run.rects.head?.map Rect.position = some (0, 0)
    ∧ ∀ r ∈ run.rects.drop 1, r.position.1 = 10 := by
  obtain ⟨rep', c, rfl⟩ := stackLoop_mem l row (RepeatedSugar.new 0) run h
  rcases hd : c.decoration with _ | d
  · rw [emitBoundary_rects_of_none l rep' c hd]
    exact ⟨rfl, by simp⟩
  · rw [emitBoundary_rects_of_some l rep' c d hd]
    refine ⟨rfl, ?_⟩
    intro r hr
    simp at hr
    rw [hr]

/-- Witness for C10: the single run of the row `[cadec]` has its background
rect at `(0, 0)` and its decoration rect at horizontal position 10. -/
theorem claim10_rect_positions_witness :
    (emitBoundary l0 (RepeatedSugar.new 0).set_reset_on_next cadec).rects.head?.map
        Rect.position = some (0, 0)
    ∧ ∀ r ∈ (emitBoundary l0 (RepeatedSugar.new 0).set_reset_on_next cadec).rects.drop 1,
        r.position.1 = 10 :=
  claim10_rect_positions l0 [cadec] _ (by rw [stackLoop_singleton]; exact List.mem_singleton.mpr rfl)


end Rio
